import Mathlib

/-!
Verification development for the boulderd repository (src/logic.rs,
src/repo_state.rs): a shallow embedding of the upstream-resolution and
update-decision engine, together with proofs and refutations of the
frozen specification claims.

Modelling conventions:
  * Rust `String`/`&str` become Lean `String`; character-level work is done
    on `String.data : List Char`.
  * `serde_yaml::Value` becomes the inductive `Yaml` (string, mapping, other).
  * I/O results (file reads, YAML parses, HTTP responses) become `Option`
    parameters threaded into the embedded functions: `none` models the
    failure the code observes at that point.
  * A Rust panic (`unwrap` on a failed read/parse) is the `panicked`
    outcome; `std::thread::scope` re-raises a worker panic in the caller,
    which the run model propagates.
-/

namespace Boulderd

/-- Models `serde_yaml::Value` as far as `deserialize_upstreams` inspects it:
strings, mappings, and everything else (`null`, booleans, numbers,
sequences), which the code treats uniformly (`_ => return None`). -/
inductive Yaml where
  | str : String → Yaml
  | mapping : List (Yaml × Yaml) → Yaml
  | other : Yaml

/-- `UpstreamValue` from repo_state.rs: a bare hash, an extended form with
auxiliary properties (the `HashMap<String, serde_yaml::Value>` is modelled
as an association list), or a version-control hash. -/
inductive UpstreamValue where
  | Simple : String → UpstreamValue
  | Extended : String → List (String × Yaml) → UpstreamValue
  | Git : String → UpstreamValue

/-- `UpstreamEntry` from repo_state.rs: a URL paired with its value. -/
structure UpstreamEntry where
  url : String
  value : UpstreamValue

/-- `Releases` from repo_state.rs (monitoring.yaml): optional tracking id
and optional rss feed. -/
structure Releases where
  id : Option Nat
  rss : Option String

/-- `Monitoring` from repo_state.rs: the parsed monitoring.yaml document. -/
structure Monitoring where
  releases : Releases
  security : Option Yaml

/-- `Manifest` from repo_state.rs: the parsed stone.yaml document. -/
structure Manifest where
  name : String
  version : String
  release : Option Nat
  upstreams : Option (List UpstreamEntry)
  homepage : Option String

/-- `ApiProject` from repo_state.rs: the decoded release-monitoring.org
response body. -/
structure ApiProject where
  version : String
  homepage : Option String

/-- `VersionSourceType` from repo_state.rs. -/
inductive VersionSourceType where
  | Git
  | Archive
deriving DecidableEq

/-- Rust `str::starts_with`, on the character list. -/
def strStartsWith (s pre : String) : Bool :=
  pre.data.isPrefixOf s.data

/-- Rust `str::contains` (substring containment), on the character list. -/
def strContainsSub (pat : List Char) : List Char → Bool
  | [] => pat.isEmpty
  | c :: rest => pat.isPrefixOf (c :: rest) || strContainsSub pat rest

/-- Rust `str::contains` on `String`s. -/
def strContains (s pat : String) : Bool :=
  strContainsSub pat.data s.data

/-- The fixed forge allow-list from `is_git_source` (repo_state.rs 361-369). -/
def git_forges : List String :=
  ["github.com", "gitlab.com", "bitbucket.com", "git.kernel.org",
   "code.videolan.org", "git.savannah.gnu.org", "invent.kde.org"]

/-- `is_git_source` (repo_state.rs 354-375): explicit `git|` marker, or a
forge name occurring in the URL together with `.git` occurring in the URL.
Note the code tests substring containment (`url.contains(forge)`), not the
URL's host component. -/
def is_git_source (upstream_entry : UpstreamEntry) : Bool :=
  if strStartsWith upstream_entry.url "git|" then
    true
  else
    git_forges.any (fun forge => strContains upstream_entry.url forge)
      && strContains upstream_entry.url ".git"

/-- `get_version_source_type` (repo_state.rs 377-383). -/
def get_version_source_type (upstream_entry : UpstreamEntry) : VersionSourceType :=
  if is_git_source upstream_entry then
    VersionSourceType.Git
  else
    VersionSourceType.Archive

/-- A word character of the regex crate's replacement-string syntax
(`$name` group references): letters, digits, underscore. -/
def isWordChar (c : Char) : Bool :=
  c.isAlpha || c.isDigit || c == '_'

/-- Value of a replacement-string group reference for the regexes built in
`replace_version_in_url`: those regexes have no capture groups besides
group 0 (the whole match), so a numeric name denoting 0 expands to the
matched text and every other name expands to the empty string. -/
def groupRef (matched : String) (name : List Char) : List Char :=
  if !name.isEmpty && name.all Char.isDigit then
    if name.foldl (fun n c => n * 10 + (c.toNat - 48)) 0 = 0 then
      matched.data
    else []
  else []

/-- The regex crate's replacement-string expansion, as used by
`Regex::replace` in `replace_version_in_url`: `$$` is a literal dollar,
`$name` (longest word-character run) and the braced form reference a
capture group (empty when absent), and a dollar not followed by a group
reference stays literal. -/
def expandRepAux (matched : String) : Nat → List Char → List Char
  | 0, _ => []
  | _ + 1, [] => []
  | _ + 1, [c] => [c]
  | fuel + 1, c :: next :: rest2 =>
    if c == '$' then
      if next == '$' then
        '$' :: expandRepAux matched fuel rest2
      else if next == Char.ofNat 123 then
        let name := rest2.takeWhile (fun d => d != Char.ofNat 125)
        if (rest2.drop name.length).isEmpty then
          '$' :: next :: expandRepAux matched fuel rest2
        else
          groupRef matched name
            ++ expandRepAux matched fuel (rest2.drop (name.length + 1))
      else
        let name := (next :: rest2).takeWhile isWordChar
        if name.isEmpty then
          '$' :: expandRepAux matched fuel (next :: rest2)
        else
          groupRef matched name
            ++ expandRepAux matched fuel ((next :: rest2).drop name.length)
    else
      c :: expandRepAux matched fuel (next :: rest2)

/-- Entry point for the replacement-string expansion: the recursion
consumes at least one character per step, so the list's length bounds the
number of steps. -/
def expandRep (matched : String) (rep : List Char) : List Char :=
  expandRepAux matched rep.length rep

/-- Leftmost match of the regex `v?O` (optional literal `v`, then the
escaped old-version literal `O`) in a character list, as the regex engine
finds it: positions are tried left to right, and at each position the
greedy `v?` first tries to consume a `v`. Returns the match's start index
and length. -/
def findVOpt (old : List Char) : List Char → Option (Nat × Nat)
  | [] => if old.isEmpty then some (0, 0) else none
  | c :: rest =>
    if c == 'v' && old.isPrefixOf rest then
      some (0, old.length + 1)
    else if old.isPrefixOf (c :: rest) then
      some (0, old.length)
    else
      (findVOpt old rest).map (fun p => (p.1 + 1, p.2))

/-- Leftmost occurrence of the literal pattern `old` in a character list
(the second regex of `replace_version_in_url`). -/
def findLit (old : List Char) : List Char → Option Nat
  | [] => if old.isEmpty then some 0 else none
  | c :: rest =>
    if old.isPrefixOf (c :: rest) then
      some 0
    else
      (findLit old rest).map (· + 1)

/-- `replace_version_in_url` (repo_state.rs 385-403): try the pattern
`v?<escaped old_version>`, then `<escaped old_version>` alone; on the first
regex that matches, replace the leftmost match with the expanded
replacement string (`Regex::replace` replaces only the first match);
otherwise fall back to a plain replace-all (`str::replace`). -/
def replace_version_in_url (url old_version new_version : String) : String :=
  match findVOpt old_version.data url.data with
  | some p =>
      let matched := String.mk ((url.data.drop p.1).take p.2)
      String.mk (url.data.take p.1 ++ expandRep matched new_version.data
        ++ url.data.drop (p.1 + p.2))
  | none =>
      match findLit old_version.data url.data with
      | some i =>
          let matched := String.mk ((url.data.drop i).take old_version.data.length)
          String.mk (url.data.take i ++ expandRep matched new_version.data
            ++ url.data.drop (i + old_version.data.length))
      | none => String.replace url old_version new_version

/-- serde_yaml `Mapping::get` with a string key: the value of the first
pair whose key is that string. -/
def yamlGet (m : List (Yaml × Yaml)) (key : String) : Option Yaml :=
  (m.find? (fun kv =>
    match kv.1 with
    | Yaml.str s => s == key
    | _ => false)).map (fun kv => kv.2)

/-- serde_yaml `Value::as_str`: the string payload when the value is a
string, `None` otherwise. -/
def yamlAsStr : Yaml → Option String
  | Yaml.str s => some s
  | _ => none

/-- One element of the upstream list under `deserialize_upstreams`
(repo_state.rs 461-511): a single-key mapping from URL to value. A bare
string is a hash; a mapping must carry a string under the `hash` key
(`map.get("hash")?.as_str()?`) and its remaining string-keyed pairs become
auxiliary properties; any other value form drops the element. A URL with
the `git|` marker collapses either form to `UpstreamValue.Git`. -/
def parse_upstream (url : String) (value : Yaml) : Option UpstreamEntry :=
  match value with
  | Yaml.str hash =>
      if strStartsWith url "git|" then
        some ⟨url, UpstreamValue.Git hash⟩
      else
        some ⟨url, UpstreamValue.Simple hash⟩
  | Yaml.mapping m =>
      match (yamlGet m "hash").bind yamlAsStr with
      | some hash =>
          let properties := m.filterMap (fun kv =>
            match kv.1 with
            | Yaml.str k => if k == "hash" then none else some (k, kv.2)
            | _ => none)
          if strStartsWith url "git|" then
            some ⟨url, UpstreamValue.Git hash⟩
          else
            some ⟨url, UpstreamValue.Extended hash properties⟩
      | none => none
  | Yaml.other => none

/-- The hash extraction shared by `Package::get_current_hash`
(repo_state.rs 338-343) and the `cur_hash` computation in `Package::update`
(repo_state.rs 171-179). -/
def get_current_hash (upstream : UpstreamEntry) : String :=
  match upstream.value with
  | UpstreamValue.Simple hash => hash
  | UpstreamValue.Git hash => hash
  | UpstreamValue.Extended hash _ => hash

/-- `Package::get_git_hash` (repo_state.rs 345-350): the version-control
hash lookup is unimplemented and unconditionally returns the empty
string. -/
def get_git_hash (version : String) (upstream : UpstreamEntry) : String :=
  ""

/-- `Package::get_latest` (repo_state.rs 293-336), the upstream resolver.
The single HTTP GET against release-monitoring.org and its JSON decode are
modelled by the `remote` parameter: `none` is a transport or decode
failure, `some project` is a decoded body. The call is only made when the
monitoring id is present; without an id the resolver returns the empty
pair without consulting `remote`. -/
def get_latest (monitoring : Monitoring) (remote : Option ApiProject)
    (cur_upstream : UpstreamEntry) (cur_vers : String) : String × String :=
  match monitoring.releases.id with
  | some _ =>
      match remote with
      | some project =>
          let new_version := project.version
          if new_version = cur_vers then
            (new_version, get_current_hash cur_upstream)
          else
            match get_version_source_type cur_upstream with
            | VersionSourceType.Git =>
                (new_version, get_git_hash new_version cur_upstream)
            | VersionSourceType.Archive =>
                (new_version,
                 replace_version_in_url cur_upstream.url cur_vers new_version)
      | none => ("", "")
  | none => ("", "")

/-- The outcome of the comparison-and-dispatch part of `Package::update`:
skip (no updater invocation), nothing to update, or an invocation of the
external updater with a target version and upstream argument. -/
inductive Decision where
  | Skip
  | NoOp
  | Update (version : String) (upstreamArg : String)
deriving DecidableEq

/-- The current identity against which the resolved identity is compared:
the first upstream entry's hash, or the empty string when there is no
upstream entry (`cur_hash`, repo_state.rs 171-179; the code wraps the
resolved identity in `serde_yaml::Value::String` before comparing, and
that comparison is string equality with the inner string). -/
def current_identity (manifest : Manifest) : String :=
  match manifest.upstreams.bind List.head? with
  | some entry => get_current_hash entry
  | none => ""

/-- The update decision of `Package::update` (repo_state.rs 191-223):
empty resolved identity short-circuits to Skip; an unchanged
version-and-identity pair is NoOp; otherwise the upstream argument is
built from the first upstream entry by source type (`"<url>, <hash>"` for
version control, the substituted URL alone for archives), degrading to
Skip when it is empty (no upstream entry at all, repo_state.rs 204-223). -/
def decideUpdate (manifest : Manifest)
    (latest_vers latest_hash_or_url : String) : Decision :=
  if latest_hash_or_url = "" then
    Decision.Skip
  else if latest_vers ≠ manifest.version
      ∨ latest_hash_or_url ≠ current_identity manifest then
    let upstream_arg :=
      match manifest.upstreams.bind List.head? with
      | some entry =>
          match get_version_source_type entry with
          | VersionSourceType.Git => entry.url ++ ", " ++ latest_hash_or_url
          | VersionSourceType.Archive => latest_hash_or_url
      | none => ""
    if upstream_arg = "" then
      Decision.Skip
    else
      Decision.Update latest_vers upstream_arg
  else
    Decision.NoOp

/-- `Package` (repo_state.rs 22-28); paths are modelled as strings. -/
structure Package where
  path : String
  manifest : String
  monitoring : String
  updated : Bool

/-- Package construction during repository discovery (repo_state.rs 53-64
and 97-106): the two document paths are derived from the directory and the
`updated` flag starts out false. -/
def discoverPackage (path : String) : Package :=
  { path := path
    manifest := path ++ "/stone.yaml"
    monitoring := path ++ "/monitoring.yaml"
    updated := false }

/-- The per-package I/O environment of one `Package::update` call: the
monitoring and manifest documents as their reads-plus-parses deliver them
(`none` models an unreadable or undecodable document, on which the code's
`unwrap` panics), and the remote lookup result consumed by
`get_latest`. -/
structure PkgEnv where
  monitoringDoc : Option Monitoring
  manifestDoc : Option Manifest
  remote : Option ApiProject

/-- Result of one worker's `Package::update` call: a panic (failed
`unwrap` on a document read or parse), the silent early exit when
`updated` is already true, or a computed decision. -/
inductive UpdateOutcome where
  | panicked
  | alreadyUpdated
  | decision (d : Decision)
deriving DecidableEq

/-- `Package::update` (repo_state.rs 160-291) as one worker step: guard on
`updated`, read and parse both documents (panicking on failure), resolve
the first upstream entry (an absent upstream list yields the empty pair,
repo_state.rs 181-189), and decide. -/
def updateStep (p : Package) (env : PkgEnv) : UpdateOutcome :=
  if p.updated then
    UpdateOutcome.alreadyUpdated
  else
    match env.monitoringDoc, env.manifestDoc with
    | some monitoring, some manifest =>
        let latestPair :=
          match manifest.upstreams.bind List.head? with
          | some first_upstream =>
              get_latest monitoring env.remote first_upstream manifest.version
          | none => ("", "")
        UpdateOutcome.decision (decideUpdate manifest latestPair.1 latestPair.2)
    | _, _ => UpdateOutcome.panicked

/-- Result of a whole `update_cosmic_packages` run: the outcomes of the
workers that ran, and whether the run finished normally or aborted with a
propagated panic. -/
inductive RunResult where
  | finished (outcomes : List UpdateOutcome)
  | panicked (outcomes : List UpdateOutcome)
deriving DecidableEq

/-- The outcomes a run produced before finishing or aborting. -/
def RunResult.outcomes : RunResult → List UpdateOutcome
  | RunResult.finished os => os
  | RunResult.panicked os => os

/-- `update_cosmic_packages` (logic.rs 4-16): `for_each` over the package
list; each iteration opens a `thread::scope`, spawns a single worker for
that package, and the scope joins it before the iteration ends. If the
worker panicked, `thread::scope` re-raises the panic in the dispatcher, so
the `for_each` unwinds and no later package is processed. -/
def runDispatcher : List (Package × PkgEnv) → RunResult
  | [] => RunResult.finished []
  | (p, env) :: rest =>
      match updateStep p env with
      | UpdateOutcome.panicked => RunResult.panicked []
      | o =>
          match runDispatcher rest with
          | RunResult.finished os => RunResult.finished (o :: os)
          | RunResult.panicked os => RunResult.panicked (o :: os)

/-- Scheduling events of the dispatcher, for the concurrency-shape
claims. -/
inductive DispatchEvent where
  | spawn (i : Nat)
  | join (i : Nat)
deriving DecidableEq

/-- The scheduling trace of `update_cosmic_packages` (logic.rs 7-15) over
`n` packages: the `for_each` body runs per package, and inside it
`thread::scope` spawns worker `i` and then joins worker `i` when the scope
closes, before the loop moves to package `i + 1`. -/
def dispatchTrace (n : Nat) : List DispatchEvent :=
  (List.range n).flatMap (fun i => [DispatchEvent.spawn i, DispatchEvent.join i])

/-- Modelled from the spec: "one worker task per package, all launched
concurrently at the start of a run; the dispatcher waits for all workers
to finish" — in trace form, every spawn event precedes every join event,
i.e. the trace is a block of spawns followed by a block of joins. -/
def spec_allSpawnsBeforeJoins (tr : List DispatchEvent) : Bool :=
  (tr.dropWhile (fun e =>
    match e with
    | DispatchEvent.spawn _ => true
    | DispatchEvent.join _ => false)).all (fun e =>
      match e with
      | DispatchEvent.spawn _ => false
      | DispatchEvent.join _ => true)

/-- Modelled from the spec: the host component of a URL — the authority
part after the `://` scheme separator (or the start of the string when no
scheme separator is present), up to the next slash. -/
def urlHost (url : String) : String :=
  let rec afterScheme : List Char → List Char
    | [] => []
    | c :: rest =>
      if [':', '/', '/'].isPrefixOf (c :: rest) then
        rest.drop 2
      else
        afterScheme rest
  String.mk ((afterScheme url.data).takeWhile (fun c => c != '/'))

/-- Modelled from the spec: "An entry is VersionControl if (a) its URL
starts with a reserved marker prefix, OR (b) its URL's host matches a
fixed allow-list of known version-control hosting services AND the URL
also contains a version-control repository suffix marker." -/
def spec_is_version_control (upstream_entry : UpstreamEntry) : Bool :=
  strStartsWith upstream_entry.url "git|"
    || (git_forges.contains (urlHost upstream_entry.url)
        && strContains upstream_entry.url ".git")

/-! ## Helper lemmas -/

theorem expandRepAux_no_dollar (matched : String) :
    ∀ (fuel : Nat) (l : List Char), '$' ∉ l → l.length ≤ fuel →
      expandRepAux matched fuel l = l
  | 0, l, _, hl => by
      have hnil : l = [] := List.eq_nil_of_length_eq_zero (Nat.le_zero.mp hl)
      simp [hnil, expandRepAux]
  | _ + 1, [], _, _ => rfl
  | _ + 1, [c], _, _ => rfl
  | fuel + 1, c :: next :: rest2, hd, hl => by
      have hc : (c == '$') = false := by
        simp only [beq_eq_false_iff_ne]
        intro h
        exact hd (by simp [h])
      have hrec := expandRepAux_no_dollar matched fuel (next :: rest2)
        (fun h => hd (List.mem_cons_of_mem _ h))
        (by simp at hl ⊢; omega)
      simp only [expandRepAux, hc, Bool.false_eq_true, if_false, hrec]

theorem expandRep_no_dollar (matched : String) (l : List Char)
    (hd : '$' ∉ l) : expandRep matched l = l :=
  expandRepAux_no_dollar matched l.length l hd (Nat.le_refl _)

theorem strContainsSub_iff (pat : List Char) :
    ∀ l : List Char, strContainsSub pat l = true ↔ pat <:+: l
  | [] => by
      simp [strContainsSub, List.isEmpty_iff]
  | c :: rest => by
      simp only [strContainsSub, Bool.or_eq_true,
        List.isPrefixOf_iff_prefix, strContainsSub_iff pat rest,
        List.infix_cons_iff]

theorem strContains_iff (s pat : String) :
    strContains s pat = true ↔ pat.data <:+: s.data :=
  strContainsSub_iff pat.data s.data

theorem findVOpt_plain :
    ∀ (old u : List Char), old <:+: u → ¬ ('v' :: old) <:+: u →
      ∃ i, findVOpt old u = some (i, old.length) ∧ old <+: u.drop i
  | old, [], hocc, _ => by
      have hnil : old = [] := by simpa using hocc
      subst hnil
      exact ⟨0, by simp [findVOpt], by simp⟩
  | old, c :: rest, hocc, hv => by
      by_cases h1 : (c == 'v' && old.isPrefixOf rest) = true
      · exfalso
        simp only [Bool.and_eq_true, beq_iff_eq,
          List.isPrefixOf_iff_prefix] at h1
        obtain ⟨hcv, t, ht⟩ := h1
        subst hcv
        exact hv ⟨[], t, by simp [ht]⟩
      · by_cases h2 : old.isPrefixOf (c :: rest) = true
        · refine ⟨0, by simp [findVOpt, h1, h2], ?_⟩
          simpa [ List.isPrefixOf_iff_prefix] using h2
        · have hocc' : old <:+: rest := by
            rcases List.infix_cons_iff.mp hocc with hp | hi
            · exact absurd (by simpa [ List.isPrefixOf_iff_prefix]
                using hp) (by simpa using h2)
            · exact hi
          have hv' : ¬ ('v' :: old) <:+: rest := fun h => hv (List.infix_cons h)
          obtain ⟨i, hfind, hpre⟩ := findVOpt_plain old rest hocc' hv'
          exact ⟨i + 1, by simp [findVOpt, h1, h2, hfind], by simpa using hpre⟩

/-! ## Claim C1 -/

/-- C1, counterexample: the claim "for every URL u and version x with x a
substring of u, `replace_version_in_url u x x = u`" fails at the URL
`https://example.org/pkg-v1.2.0.tar.gz` and version `1.2.0`: the first
regex pattern `v?1\.2\.0` matches the text `v1.2.0`, so the no-op
substitution also swallows the leading `v` and the result differs from the
input. -/
theorem c1_noop_substitution_counterexample :
    (("1.2.0" : String).data <:+:
        ("https://example.org/pkg-v1.2.0.tar.gz" : String).data) ∧
      replace_version_in_url "https://example.org/pkg-v1.2.0.tar.gz"
          "1.2.0" "1.2.0"
        ≠ "https://example.org/pkg-v1.2.0.tar.gz" := by
  constructor
  · decide
  · decide

/-- C1, amended: for every URL u and version x such that u contains x, the
no-op substitution `replace_version_in_url u x x` returns u unchanged,
provided no occurrence of x in u is immediately preceded by the character
`v` (equivalently, `v` followed by x is not a substring of u) and x
contains no `$` character (which the regex engine would interpret in the
replacement string). -/
theorem c1_noop_substitution_amended (u x : String)
    (hocc : x.data <:+: u.data)
    (hv : ¬ ('v' :: x.data) <:+: u.data)
    (hd : '$' ∉ x.data) :
    replace_version_in_url u x x = u := by
  obtain ⟨i, hfind, hpre⟩ := findVOpt_plain x.data u.data hocc hv
  obtain ⟨t, ht⟩ := hpre
  unfold replace_version_in_url
  rw [hfind]
  have h1 : (u.data.drop i).take x.data.length = x.data := by
    rw [← ht]
    exact List.take_left _ _
  have h3 : u.data.drop (i + x.data.length) = t := by
    rw [← List.drop_drop, ← ht]
    exact List.drop_left _ _
  simp only [h1, h3, expandRep_no_dollar _ _ hd]
  have h4 : u.data.take i ++ x.data ++ t = u.data := by
    rw [List.append_assoc, ht, List.take_append_drop]
  rw [h4]

/-- C1, witness for the amended theorem at a concrete archive URL. -/
theorem c1_noop_substitution_witness :
    replace_version_in_url "https://example.org/pkg-1.2.0.tar.gz"
        "1.2.0" "1.2.0"
      = "https://example.org/pkg-1.2.0.tar.gz" :=
  c1_noop_substitution_amended
    "https://example.org/pkg-1.2.0.tar.gz" "1.2.0"
    (by decide) (by decide) (by decide)

/-! ## Claim C2 -/

/-- C2: the claim that a package's document parse failure is confined to
that package's worker and the other packages are still fully processed is
contradicted by the code. With two discovered packages where the first
package's monitoring document is undecodable, the first worker panics
(`unwrap`), `thread::scope` re-raises the panic inside the dispatching
`for_each`, and the run aborts with no outcome recorded — the second,
well-formed package is never processed, although on its own it would have
been processed to a Skip decision. -/
theorem c2_parse_failure_aborts_run :
    runDispatcher
        [(discoverPackage "alpha",
          ⟨none, some ⟨"alpha", "1.0", none, none, none⟩, none⟩),
         (discoverPackage "beta",
          ⟨some ⟨⟨some 1, none⟩, none⟩,
           some ⟨"beta", "1.0", none, none, none⟩, none⟩)]
      = RunResult.panicked []
    ∧ runDispatcher
        [(discoverPackage "beta",
          ⟨some ⟨⟨some 1, none⟩, none⟩,
           some ⟨"beta", "1.0", none, none, none⟩, none⟩)]
      = RunResult.finished [UpdateOutcome.decision Decision.Skip] := by
  constructor
  · rfl
  · rfl

/-! ## Claim C3 -/

/-- C3, counterexample: classification does not test the URL's host
against the allow-list, only substring containment. The URL
`https://evil.com/github.com/x.git` has host `evil.com`, which is not in
the allow-list, and does not start with `git|`, so the claim says it is
classified Archive; the code classifies it as VersionControl because
`github.com` and `.git` occur in the URL as substrings. -/
theorem c3_classification_counterexample :
    get_version_source_type
        ⟨"https://evil.com/github.com/x.git", UpstreamValue.Simple "h"⟩
      = VersionSourceType.Git
    ∧ urlHost "https://evil.com/github.com/x.git" = "evil.com"
    ∧ spec_is_version_control
        ⟨"https://evil.com/github.com/x.git", UpstreamValue.Simple "h"⟩
      = false := by
  refine ⟨by decide, by decide, by decide⟩

/-- C3, amended: classification returns VersionControl if and only if the
URL starts with the reserved marker `git|`, or the URL contains one of the
allow-listed forge names as a substring (not necessarily as its host) and
also contains `.git` as a substring; every other entry is Archive. -/
theorem c3_classification_amended (e : UpstreamEntry) :
    get_version_source_type e = VersionSourceType.Git ↔
      ("git|" : String).data <+: e.url.data
        ∨ ((∃ f ∈ git_forges, f.data <:+: e.url.data)
            ∧ (".git" : String).data <:+: e.url.data) := by
  have hiff : is_git_source e = true ↔
      ("git|" : String).data <+: e.url.data
        ∨ ((∃ f ∈ git_forges, f.data <:+: e.url.data)
            ∧ (".git" : String).data <:+: e.url.data) := by
    unfold is_git_source strStartsWith
    by_cases hp : ("git|" : String).data.isPrefixOf e.url.data = true
    · have hpre : ("git|" : String).data <+: e.url.data := by
        simpa [ List.isPrefixOf_iff_prefix] using hp
      simp [hp, hpre]
    · have hnp : ¬ ("git|" : String).data <+: e.url.data := by
        simpa [ List.isPrefixOf_iff_prefix] using hp
      simp [hp, hnp, Bool.and_eq_true, List.any_eq_true, strContains_iff]
  unfold get_version_source_type
  cases h : is_git_source e
  · rw [h] at hiff
    simp only [Bool.false_eq_true, false_iff] at hiff
    simp [h, hiff]
  · rw [h] at hiff
    simp only [true_iff] at hiff
    simp [h, hiff]

/-! ## Claim C4 -/

/-- C4: for every manifest and every resolved upstream whose
latest-identity string is empty, the decision is Skip, regardless of the
resolved version (in particular regardless of whether it equals the
manifest's current version). -/
theorem c4_empty_identity_skips (manifest : Manifest) (latest_vers : String) :
    decideUpdate manifest latest_vers "" = Decision.Skip := by
  unfold decideUpdate
  simp

/-! ## Claim C5 -/

/-- C5: end-to-end archive scenario. Manifest version `1.2.0` with the
single archive upstream `https://example.org/pkg-1.2.0.tar.gz` (hash
`abcd1234`); the monitoring id is present and the remote lookup returns
version `1.3.0`. The resolver substitutes the version inside the URL,
producing latest identity `https://example.org/pkg-1.3.0.tar.gz`, and the
decision is Update with version `1.3.0` and exactly that URL as the
upstream argument. -/
theorem c5_end_to_end_archive_update :
    get_latest ⟨⟨some 377113, none⟩, none⟩ (some ⟨"1.3.0", none⟩)
        ⟨"https://example.org/pkg-1.2.0.tar.gz", UpstreamValue.Simple "abcd1234"⟩
        "1.2.0"
      = ("1.3.0", "https://example.org/pkg-1.3.0.tar.gz")
    ∧ decideUpdate
        ⟨"pkg", "1.2.0", none,
         some [⟨"https://example.org/pkg-1.2.0.tar.gz",
               UpstreamValue.Simple "abcd1234"⟩], none⟩
        "1.3.0" "https://example.org/pkg-1.3.0.tar.gz"
      = Decision.Update "1.3.0" "https://example.org/pkg-1.3.0.tar.gz" := by
  refine ⟨by decide, by decide⟩

/-! ## Claim C6 -/

/-- C6: for every manifest and resolved upstream with a non-empty latest
identity, if the resolved version equals the manifest's current version
and the resolved identity equals the current entry's identity, the
decision is NoOp — never Update. -/
theorem c6_unchanged_is_noop (manifest : Manifest)
    (latest_vers latest_hash_or_url : String)
    (hne : latest_hash_or_url ≠ "")
    (hv : latest_vers = manifest.version)
    (hh : latest_hash_or_url = current_identity manifest) :
    decideUpdate manifest latest_vers latest_hash_or_url = Decision.NoOp := by
  subst hv
  subst hh
  unfold decideUpdate
  simp [hne]

/-- C6, witness: current version `2.0.0`, identical resolved version and
identity. -/
theorem c6_unchanged_is_noop_witness :
    decideUpdate
        ⟨"pkg", "2.0.0", none,
         some [⟨"https://example.org/pkg-2.0.0.tar.gz",
               UpstreamValue.Simple "abcd1234"⟩], none⟩
        "2.0.0" "abcd1234"
      = Decision.NoOp :=
  c6_unchanged_is_noop _ _ _ (by decide) (by decide) (by decide)

/-! ## Claim C7 -/

/-- C7: for every upstream entry classified as version control and every
remote lookup returning a version different from the current one,
resolution yields an empty latest identity (`get_git_hash` always returns
the empty string), so the decision is Skip and no update command is
dispatched. -/
theorem c7_git_source_always_skips (monitoring : Monitoring) (id : Nat)
    (project : ApiProject) (upstream : UpstreamEntry) (manifest : Manifest)
    (hid : monitoring.releases.id = some id)
    (hgit : is_git_source upstream = true)
    (hver : project.version ≠ manifest.version) :
    (get_latest monitoring (some project) upstream manifest.version).2 = ""
    ∧ decideUpdate manifest
        (get_latest monitoring (some project) upstream manifest.version).1
        (get_latest monitoring (some project) upstream manifest.version).2
      = Decision.Skip := by
  have h2 : (get_latest monitoring (some project) upstream manifest.version).2
      = "" := by
    unfold get_latest
    rw [hid]
    simp [hver, get_version_source_type, hgit, get_git_hash]
  refine ⟨h2, ?_⟩
  rw [h2]
  exact c4_empty_identity_skips _ _

/-- C7, witness: a `git|`-marked upstream with a changed remote version. -/
theorem c7_git_source_always_skips_witness :
    (get_latest ⟨⟨some 1, none⟩, none⟩ (some ⟨"2.0", none⟩)
        ⟨"git|https://github.com/a/b", UpstreamValue.Git "h"⟩ "1.0").2 = ""
    ∧ decideUpdate
        ⟨"pkg", "1.0", none,
         some [⟨"git|https://github.com/a/b", UpstreamValue.Git "h"⟩], none⟩
        (get_latest ⟨⟨some 1, none⟩, none⟩ (some ⟨"2.0", none⟩)
          ⟨"git|https://github.com/a/b", UpstreamValue.Git "h"⟩ "1.0").1
        (get_latest ⟨⟨some 1, none⟩, none⟩ (some ⟨"2.0", none⟩)
          ⟨"git|https://github.com/a/b", UpstreamValue.Git "h"⟩ "1.0").2
      = Decision.Skip :=
  c7_git_source_always_skips ⟨⟨some 1, none⟩, none⟩ 1 ⟨"2.0", none⟩
    ⟨"git|https://github.com/a/b", UpstreamValue.Git "h"⟩
    ⟨"pkg", "1.0", none,
     some [⟨"git|https://github.com/a/b", UpstreamValue.Git "h"⟩], none⟩
    (by decide) (by decide) (by decide)

/-! ## Claim C8 -/

/-- C8: for every upstream list element whose URL begins with the reserved
marker `git|`, parsing produces a hash-only version-control value, whether
the element's value is a scalar or a structured mapping; in the mapping
case all auxiliary properties other than the hash are discarded. -/
theorem c8_git_marker_collapses (url : String) (value : Yaml)
    (e : UpstreamEntry)
    (hmark : strStartsWith url "git|" = true)
    (hp : parse_upstream url value = some e) :
    ∃ h, e = ⟨url, UpstreamValue.Git h⟩ := by
  cases value with
  | str hash =>
      simp only [parse_upstream] at hp
      rw [hmark] at hp
      simp at hp
      exact ⟨hash, hp.symm⟩
  | mapping m =>
      simp only [parse_upstream] at hp
      rcases hstr : (yamlGet m "hash").bind yamlAsStr with _ | hash
      · rw [hstr] at hp
        exact Option.noConfusion hp
      · rw [hstr, hmark] at hp
        simp at hp
        exact ⟨hash, hp.symm⟩
  | other =>
      simp only [parse_upstream] at hp
      exact Option.noConfusion hp

/-- C8, witness: a structured mapping with an auxiliary property under a
`git|` URL collapses to the hash-only version-control value. -/
theorem c8_git_marker_collapses_witness :
    ∃ h, (⟨"git|https://github.com/a/b", UpstreamValue.Git "abc"⟩ :
        UpstreamEntry)
      = ⟨"git|https://github.com/a/b", UpstreamValue.Git h⟩ :=
  c8_git_marker_collapses "git|https://github.com/a/b"
    (Yaml.mapping [(Yaml.str "hash", Yaml.str "abc"),
                   (Yaml.str "tag", Yaml.str "v1")])
    ⟨"git|https://github.com/a/b", UpstreamValue.Git "abc"⟩
    (by decide) (by rfl)

/-! ## Claim C9 -/

/-- Discovered packages never take the already-updated early exit. -/
theorem updateStep_discover_ne_alreadyUpdated (path : String) (env : PkgEnv) :
    updateStep (discoverPackage path) env ≠ UpdateOutcome.alreadyUpdated := by
  unfold updateStep discoverPackage
  simp only [Bool.false_eq_true, if_false]
  split <;> simp

/-- C9: the `updated` flag is created false at discovery and no core
operation sets it to true (`Package::update` takes the package
immutably), so in a whole run over discovered packages the guard that
would make `update` a no-op is never triggered: no worker outcome is the
already-updated early exit. -/
theorem c9_updated_guard_never_fires (path : String)
    (xs : List (String × PkgEnv)) :
    (discoverPackage path).updated = false
    ∧ UpdateOutcome.alreadyUpdated ∉
        (runDispatcher
          (xs.map (fun pe => (discoverPackage pe.1, pe.2)))).outcomes := by
  refine ⟨rfl, ?_⟩
  induction xs with
  | nil => simp [runDispatcher, RunResult.outcomes]
  | cons pe rest ih =>
      simp only [List.map_cons, runDispatcher]
      rcases hstep : updateStep (discoverPackage pe.1) pe.2 with _ | _ | d
      · simp [RunResult.outcomes]
      · exact absurd hstep (updateStep_discover_ne_alreadyUpdated _ _)
      · rcases hrun : runDispatcher
            (rest.map (fun pe => (discoverPackage pe.1, pe.2))) with os | os
        · rw [hrun] at ih ⊢
          simp only [RunResult.outcomes] at ih
          simp [RunResult.outcomes, ih]
        · rw [hrun] at ih ⊢
          simp only [RunResult.outcomes] at ih
          simp [RunResult.outcomes, ih]

/-! ## Claim C10 -/

/-- C10: the claim that all workers are launched concurrently at the start
of the run is contradicted by the dispatcher's structure: in a run over
two packages, worker 0 is spawned and joined (the per-package
`thread::scope` closes) before worker 1 is spawned, so the trace is not a
block of spawns followed by a block of joins. The dispatcher does join
every worker it spawned before the run completes, but sequentially, one
package at a time. -/
theorem c10_workers_not_launched_concurrently :
    dispatchTrace 2
      = [DispatchEvent.spawn 0, DispatchEvent.join 0,
         DispatchEvent.spawn 1, DispatchEvent.join 1]
    ∧ spec_allSpawnsBeforeJoins (dispatchTrace 2) = false := by
  refine ⟨by decide, by decide⟩

end Boulderd
